import Mathlib

/-!
Verification of the incremental streaming response processor of
`src/pages/ChatPage.tsx` (SwitchMinds frontend).

The development shallowly embeds:

* `parseJSONStream` (ChatPage.tsx lines 43-93): the brace-depth / string-aware
  tokenizer that cuts a growing text buffer into complete top-level JSON
  object candidates.  JS strings are modelled as `List Char`; the JS builtin
  `JSON.parse` (wrapped in try/catch by the source) is modelled by the total
  function `jsonParse : List Char → Option Json`.  Since the scanner is
  oblivious to what the parse function returns, it is stated once,
  parameterized over the parse oracle (`parseJSONStreamWith`), and
  `parseJSONStream` is its instantiation at `jsonParse`.
* the read loop and per-event dispatch of `handleSendMessage`
  (lines 277-341), `handleCancelRequest` (lines 162-187) and the turn
  lifecycle (lines 193-386).  React `useState` cells and the per-turn local
  accumulators are modelled as explicit state (`ChatState`) threaded through
  the sequential event loop; `setMessages(prev => prev.map(...))` becomes
  `patchMsg`.  Network, toasts and rendering are external effects and are not
  part of the state.
-/

/-! ### Characters

Literal braces inside string literals are written with hex escapes throughout
this file, so the brace characters are given names once. -/

def lbrace : Char := Char.ofNat 123

def rbrace : Char := Char.ofNat 125

def quoteChar : Char := '\"'

def backslashChar : Char := '\\'

/-! ### JSON values

`Json` models the values produced by `JSON.parse`.  Numbers are modelled
exactly as scaled decimals `m * 10 ^ e` (with the mantissa normalized to not
be divisible by 10), side-stepping IEEE float rounding; no claim depends on
numeric values. -/

inductive Json where
  | null : Json
  | bool : Bool → Json
  | num : Int → Int → Json
  | str : String → Json
  | arr : List Json → Json
  | obj : List (String × Json) → Json

/-! ### A model of the JS builtin `JSON.parse`

A total recursive-descent JSON reader.  `jsonParse s = some v` models
`JSON.parse(s)` succeeding with `v`; `none` models it throwing (which the
source catches).  Recursion is fueled; `jsonParse` supplies ample fuel. -/

def isJsonWs (c : Char) : Bool :=
  c = ' ' || c = '\t' || c = '\n' || c = '\r'

def skipWs : List Char → List Char
  | [] => []
  | c :: cs => if isJsonWs c then skipWs cs else c :: cs

def hexDigit (c : Char) : Option Nat :=
  if '0' ≤ c ∧ c ≤ '9' then some (c.toNat - 48)
  else if 'a' ≤ c ∧ c ≤ 'f' then some (c.toNat - 87)
  else if 'A' ≤ c ∧ c ≤ 'F' then some (c.toNat - 55)
  else none

def escMap (e : Char) : Option Char :=
  if e = quoteChar then some quoteChar
  else if e = backslashChar then some backslashChar
  else if e = '/' then some '/'
  else if e = 'b' then some (Char.ofNat 8)
  else if e = 'f' then some (Char.ofNat 12)
  else if e = 'n' then some '\n'
  else if e = 'r' then some '\r'
  else if e = 't' then some '\t'
  else none

/-- Reads the body of a JSON string after the opening quote, decoding escape
sequences, up to and including the closing quote. -/
def parseStrChars : Nat → List Char → Option (List Char × List Char)
  | 0, _ => none
  | _, [] => none
  | fuel + 1, c :: cs =>
    if c = quoteChar then some ([], cs)
    else if c = backslashChar then
      match cs with
      | [] => none
      | e :: cs2 =>
        if e = 'u' then
          match cs2 with
          | h1 :: h2 :: h3 :: h4 :: cs3 =>
            match hexDigit h1, hexDigit h2, hexDigit h3, hexDigit h4 with
            | some a, some b, some c2, some d =>
              (parseStrChars fuel cs3).map
                (fun r => (Char.ofNat (((a * 16 + b) * 16 + c2) * 16 + d) :: r.1, r.2))
            | _, _, _, _ => none
          | _ => none
        else
          match escMap e with
          | some ch => (parseStrChars fuel cs2).map (fun r => (ch :: r.1, r.2))
          | none => none
    else if c.toNat < 32 then none
    else (parseStrChars fuel cs).map (fun r => (c :: r.1, r.2))

def digitVal (c : Char) : Option Nat :=
  if '0' ≤ c ∧ c ≤ '9' then some (c.toNat - 48) else none

def takeDigits : List Char → List Nat × List Char
  | [] => ([], [])
  | c :: cs =>
    match digitVal c with
    | some d => let r := takeDigits cs; (d :: r.1, r.2)
    | none => ([], c :: cs)

def natOfDigits (ds : List Nat) : Nat :=
  ds.foldl (fun a d => a * 10 + d) 0

/-- Strips factors of 10 from the mantissa into the exponent, producing the
canonical scaled-decimal representation. -/
def normNum : Nat → Int → Int → Int × Int
  | 0, m, e => (m, e)
  | fuel + 1, m, e =>
    if m ≠ 0 ∧ m % 10 = 0 then normNum fuel (m / 10) (e + 1) else (m, e)

def parseFrac : List Char → Option (List Nat × List Char)
  | [] => some ([], [])
  | p :: rest =>
    if p = '.' then
      let r := takeDigits rest
      if r.1.isEmpty then none else some (r.1, r.2)
    else some ([], p :: rest)

def parseExp : List Char → Option (Int × List Char)
  | [] => some (0, [])
  | c :: rest =>
    if c = 'e' ∨ c = 'E' then
      let sr : Int × List Char :=
        match rest with
        | s :: r2 => if s = '+' then (1, r2) else if s = '-' then (-1, r2) else (1, rest)
        | [] => (1, [])
      let r := takeDigits sr.2
      if r.1.isEmpty then none else some (sr.1 * (natOfDigits r.1 : Int), r.2)
    else some (0, c :: rest)

def parseNumber (cs : List Char) : Option (Json × List Char) :=
  let sgn : Bool × List Char :=
    match cs with
    | c :: rest => if c = '-' then (true, rest) else (false, cs)
    | [] => (false, cs)
  match sgn.2 with
  | [] => none
  | c0 :: _ =>
    if (digitVal c0).isNone then none
    else
      let r1 := takeDigits sgn.2
      if 1 < r1.1.length ∧ r1.1.headD 1 = 0 then none
      else
        match parseFrac r1.2 with
        | none => none
        | some (fr, cs3) =>
          match parseExp cs3 with
          | none => none
          | some (ex, cs4) =>
            let mant : Nat := natOfDigits (r1.1 ++ fr)
            let m : Int := if sgn.1 then -(mant : Int) else (mant : Int)
            let n := normNum (mant + 1) m (ex - (fr.length : Int))
            some (Json.num n.1 n.2, cs4)

mutual

def parseJsonV : Nat → List Char → Option (Json × List Char)
  | 0, _ => none
  | fuel + 1, cs =>
    match skipWs cs with
    | [] => none
    | c :: rest =>
      if c = quoteChar then
        match parseStrChars (rest.length + 1) rest with
        | some (sc, rest2) => some (Json.str (String.mk sc), rest2)
        | none => none
      else if c = lbrace then parseObjBody fuel rest
      else if c = '[' then parseArrBody fuel rest
      else if c = 't' then
        match rest with
        | 'r' :: 'u' :: 'e' :: rest2 => some (Json.bool true, rest2)
        | _ => none
      else if c = 'f' then
        match rest with
        | 'a' :: 'l' :: 's' :: 'e' :: rest2 => some (Json.bool false, rest2)
        | _ => none
      else if c = 'n' then
        match rest with
        | 'u' :: 'l' :: 'l' :: rest2 => some (Json.null, rest2)
        | _ => none
      else parseNumber (c :: rest)

def parseObjBody : Nat → List Char → Option (Json × List Char)
  | 0, _ => none
  | fuel + 1, cs =>
    match skipWs cs with
    | [] => none
    | c :: rest =>
      if c = rbrace then some (Json.obj [], rest)
      else parseMembers fuel (c :: rest) []

def parseMembers : Nat → List Char → List (String × Json) → Option (Json × List Char)
  | 0, _, _ => none
  | fuel + 1, cs, acc =>
    match skipWs cs with
    | [] => none
    | c :: rest =>
      if c = quoteChar then
        match parseStrChars (rest.length + 1) rest with
        | some (key, rest2) =>
          match skipWs rest2 with
          | ':' :: rest3 =>
            match parseJsonV fuel rest3 with
            | some (v, rest4) =>
              let acc2 := acc ++ [(String.mk key, v)]
              match skipWs rest4 with
              | ',' :: rest5 => parseMembers fuel rest5 acc2
              | c2 :: rest5 => if c2 = rbrace then some (Json.obj acc2, rest5) else none
              | [] => none
            | none => none
          | _ => none
        | none => none
      else none

def parseArrBody : Nat → List Char → Option (Json × List Char)
  | 0, _ => none
  | fuel + 1, cs =>
    match skipWs cs with
    | [] => none
    | c :: rest =>
      if c = ']' then some (Json.arr [], rest)
      else parseElems fuel (c :: rest) []

def parseElems : Nat → List Char → List Json → Option (Json × List Char)
  | 0, _, _ => none
  | fuel + 1, cs, acc =>
    match parseJsonV fuel cs with
    | some (v, rest) =>
      let acc2 := acc ++ [v]
      match skipWs rest with
      | ',' :: rest2 => parseElems fuel rest2 acc2
      | c2 :: rest2 => if c2 = ']' then some (Json.arr acc2, rest2) else none
      | [] => none
    | none => none

end

/-- Model of `JSON.parse` wrapped in try/catch: parse one value, allow only
trailing whitespace, `none` on any failure. -/
def jsonParse (cs : List Char) : Option Json :=
  match parseJsonV (2 * cs.length + 4) cs with
  | some (v, rest) => if (skipWs rest).isEmpty then some v else none
  | none => none

/-! ### JS string coercion

`accumulatedContent += parsedChunk.data` coerces `data` to a string when it is
not one.  `jsStr` models the coercion of a possibly-absent property value
(`undefined` stringifies to `"undefined"`).  Number rendering is a simplified
decimal rendering of the scaled-decimal model. -/

def decimalString (m : Int) (e : Int) : String :=
  let sign := if m < 0 then "-" else ""
  let n := m.natAbs
  if 0 ≤ e then sign ++ toString (n * 10 ^ e.toNat)
  else
    let k := (-e).toNat
    let ds := toString n
    if ds.length ≤ k then
      sign ++ "0." ++ String.mk (List.replicate (k - ds.length) '0') ++ ds
    else sign ++ ds.take (ds.length - k) ++ "." ++ ds.drop (ds.length - k)

mutual

def jsStringOfJson : Json → String
  | Json.null => "null"
  | Json.bool true => "true"
  | Json.bool false => "false"
  | Json.num m e => decimalString m e
  | Json.str s => s
  | Json.arr xs => jsArrayString xs
  | Json.obj _ => "[object Object]"

def jsArrayString : List Json → String
  | [] => ""
  | [j] =>
    match j with
    | Json.null => ""
    | j => jsStringOfJson j
  | j :: rest =>
    (match j with
     | Json.null => ""
     | j => jsStringOfJson j) ++ "," ++ jsArrayString rest

end

def jsStr : Option Json → String
  | none => "undefined"
  | some j => jsStringOfJson j

/-- JS property access `obj.k` on a parsed JSON value: `none` models
`undefined` (non-object receiver or missing key).  A later duplicate key wins,
as in `JSON.parse`. -/
def getField (j : Json) (k : String) : Option Json :=
  match j with
  | Json.obj fs => fs.foldl (fun acc kv => if kv.1 = k then some kv.2 else acc) none
  | _ => none

/-! ### The stream tokenizer, `parseJSONStream` (ChatPage.tsx lines 43-93)

The scanner's loop-local variables become `ScanSt`; JS indices `i`/`start`
into the scanned string are kept as in the source and
`remaining.substring(start, i + 1)` becomes `(remaining.drop start).take
(i + 1 - start)`. -/

structure ScanSt (α : Type) where
  parsed : List α
  depth : Int
  start : Nat
  inString : Bool
  escaped : Bool

/-- One iteration of the `for` loop of `parseJSONStream` for character `c` at
index `i` of `remaining`, parameterized over the `JSON.parse` model `p`. -/
def scanChar {α : Type} (p : List Char → Option α) (remaining : List Char)
    (i : Nat) (c : Char) (s : ScanSt α) : ScanSt α :=
  if s.escaped then { s with escaped := false }
  else if c = backslashChar then { s with escaped := true }
  else if c = quoteChar then { s with inString := !s.inString }
  else if s.inString then s
  else if c = lbrace then { s with depth := s.depth + 1 }
  else if c = rbrace then
    let depth := s.depth - 1
    if depth = 0 then
      let jsonStr := (remaining.drop s.start).take (i + 1 - s.start)
      let parsed :=
        match p jsonStr with
        | some o => s.parsed ++ [o]
        | none => s.parsed
      { parsed := parsed, depth := depth, start := i + 1,
        inString := s.inString, escaped := s.escaped }
    else { s with depth := depth }
  else s

def scanLoop {α : Type} (p : List Char → Option α) (remaining : List Char) :
    Nat → List Char → ScanSt α → ScanSt α
  | _, [], s => s
  | i, c :: cs, s => scanLoop p remaining (i + 1) cs (scanChar p remaining i c s)

/-- `parseJSONStream` with the `JSON.parse` model abstracted. -/
def parseJSONStreamWith {α : Type} (p : List Char → Option α) (buffer : List Char) :
    List α × List Char :=
  let s := scanLoop p buffer 0 buffer ⟨[], 0, 0, false, false⟩
  (s.parsed, buffer.drop s.start)

/-- ChatPage.tsx lines 43-93: `parseJSONStream(buffer)` returning
`{ parsed, remaining }`. -/
def parseJSONStream (buffer : List Char) : List Json × List Char :=
  parseJSONStreamWith jsonParse buffer

/-- The structural part of the scan alone: the list of complete top-level
object candidate substrings handed to `JSON.parse`, and the remainder.
Obtained by instantiating the scanner's parse oracle with `some`. -/
def scanCandidates (buffer : List Char) : List (List Char) × List Char :=
  parseJSONStreamWith (fun cand => some cand) buffer

/-- The chunk protocol of the read loop (ChatPage.tsx lines 284-288): keep the
previous call's remainder, prepend it to the next chunk, tokenize, emit the
parsed objects in order. -/
def feedLoop : List (List Char) → List Char → List Json × List Char
  | [], buffer => ([], buffer)
  | c :: rest, buffer =>
    let pr := parseJSONStream (buffer ++ c)
    let prs := feedLoop rest pr.2
    (pr.1 ++ prs.1, prs.2)

def feedChunks (chunks : List (List Char)) : List Json × List Char :=
  feedLoop chunks []

/-! ### Proof core for the tokenizer

`TokSt` replays the scan without string indices: `pending` holds the
characters since the last object boundary (`remaining.substring(start, i)` in
the source) and `cands` the candidate substrings in emission order.  The
equivalence with the indexed source-faithful scanner is proved below
(`parseJSONStreamWith_eq_tok`). -/

structure TokSt where
  cands : List (List Char)
  depth : Int
  pending : List Char
  inString : Bool
  escaped : Bool

def tokInit : TokSt := ⟨[], 0, [], false, false⟩

def stripped (s : TokSt) : TokSt := { s with cands := [] }

def tokChar (c : Char) (s : TokSt) : TokSt :=
  if s.escaped then { s with escaped := false, pending := s.pending ++ [c] }
  else if c = backslashChar then { s with escaped := true, pending := s.pending ++ [c] }
  else if c = quoteChar then { s with inString := !s.inString, pending := s.pending ++ [c] }
  else if s.inString then { s with pending := s.pending ++ [c] }
  else if c = lbrace then { s with depth := s.depth + 1, pending := s.pending ++ [c] }
  else if c = rbrace then
    if s.depth - 1 = 0 then
      ⟨s.cands ++ [s.pending ++ [c]], 0, [], s.inString, s.escaped⟩
    else { s with depth := s.depth - 1, pending := s.pending ++ [c] }
  else { s with pending := s.pending ++ [c] }

def tokRun (cs : List Char) (s : TokSt) : TokSt :=
  cs.foldl (fun s c => tokChar c s) s

/-! ### Messages and transcript (ChatPage.tsx lines 21-34, 95-112)

Optional TS fields become `Option`; `reasoning := none` models an absent
`reasoning` property. -/

inductive Role where
  | user : Role
  | assistant : Role
deriving DecidableEq

inductive FileKind where
  | image : FileKind
  | document : FileKind
deriving DecidableEq

structure Message where
  id : String
  content : String
  role : Role
  timestamp : Nat
  isStreaming : Option Bool := none
  reasoning : Option String := none
  isReasoningComplete : Option Bool := none
  metadata : Option Json := none

/-- `setMessages(prev => prev.map(msg => msg.id === mid ? {...msg, fields} : msg))`. -/
def patchMsg (msgs : List Message) (mid : String) (f : Message → Message) : List Message :=
  msgs.map (fun m => if m.id = mid then f m else m)

/-- JS truthiness of an optional boolean field. -/
def truthy : Option Bool → Bool
  | some b => b
  | none => false

/-- The React state cells of `ChatPage` together with the per-turn locals of
`handleSendMessage` (`accumulatedContent`, `accumulatedReasoning`,
`isReasoningPhase`, `buffer`), modelled as one explicit state threaded
through the sequential event loop.  `abortController : Option Unit` models
`abortControllerRef.current` being null or a live token. -/
structure ChatState where
  messages : List Message
  inputValue : String
  isLoading : Bool
  uploadedFiles : List FileKind
  abortController : Option Unit
  accumulatedContent : String
  accumulatedReasoning : String
  isReasoningPhase : Bool
  buffer : List Char

/-- The `type` discriminator of a parsed chunk, when it is a string
(`parsedChunk.type === '...'` can only match then). -/
def chunkType (j : Json) : Option String :=
  match getField j "type" with
  | some (Json.str t) => some t
  | _ => none

/-- ChatPage.tsx lines 290-328: the body of `for (const parsedChunk of parsed)`. -/
def processChunk (aiMessageId : String) (st : ChatState) (parsedChunk : Json) : ChatState :=
  match getField parsedChunk "type" with
  | some (Json.str t) =>
    if t = "reasoning" then
      let accumulatedReasoning := st.accumulatedReasoning ++ jsStr (getField parsedChunk "data")
      { st with
          accumulatedReasoning := accumulatedReasoning,
          messages := patchMsg st.messages aiMessageId
            (fun m => { m with reasoning := some accumulatedReasoning }) }
    else if t = "content" then
      let st1 :=
        if st.isReasoningPhase then
          { st with
              isReasoningPhase := false,
              messages := patchMsg st.messages aiMessageId
                (fun m => { m with isReasoningComplete := some true }) }
        else st
      let accumulatedContent := st1.accumulatedContent ++ jsStr (getField parsedChunk "data")
      { st1 with
          accumulatedContent := accumulatedContent,
          messages := patchMsg st1.messages aiMessageId
            (fun m => { m with content := accumulatedContent }) }
    else if t = "metadata" then
      { st with
          messages := patchMsg st.messages aiMessageId
            (fun m => { m with metadata := getField parsedChunk "data" }) }
    else st
  | _ => st

/-- The patch `processChunk` applies to a message whose id is the streaming
message's id (used to track the last transcript entry through the loop). -/
def procMsg (st : ChatState) (parsedChunk : Json) (m : Message) : Message :=
  match getField parsedChunk "type" with
  | some (Json.str t) =>
    if t = "reasoning" then
      { m with reasoning := some (st.accumulatedReasoning ++ jsStr (getField parsedChunk "data")) }
    else if t = "content" then
      let m1 := if st.isReasoningPhase then { m with isReasoningComplete := some true } else m
      { m1 with content := st.accumulatedContent ++ jsStr (getField parsedChunk "data") }
    else if t = "metadata" then { m with metadata := getField parsedChunk "data" }
    else m
  | _ => m

/-- ChatPage.tsx lines 279-288: one iteration of the read loop for a received
chunk: append to the buffer, tokenize, keep the remainder, dispatch the parsed
objects in order. -/
def applyChunk (aiMessageId : String) (st : ChatState) (chunk : List Char) : ChatState :=
  let pr := parseJSONStream (st.buffer ++ chunk)
  let st1 := { st with buffer := pr.2 }
  pr.1.foldl (processChunk aiMessageId) st1

/-- `prev.map((msg, index) => ...)`: a map that also passes the element's
index, written with an explicit start offset for easy induction. -/
def mapWithIndex (f : Nat → Message → Message) : Nat → List Message → List Message
  | _, [] => []
  | i, m :: rest => f i m :: mapWithIndex f (i + 1) rest

def cancellationNotice : String := "\n\n*Response was cancelled*"

/-- ChatPage.tsx lines 162-187, `handleCancelRequest`: if a token is live,
abort it, release it, clear loading, and patch the last message if it is a
streaming assistant message. -/
def handleCancelRequest (st : ChatState) : ChatState :=
  match st.abortController with
  | none => st
  | some _ =>
    { st with
        abortController := none, isLoading := false,
        messages := mapWithIndex
          (fun i m =>
            if i = st.messages.length - 1 ∧ m.role = Role.assistant ∧ truthy m.isStreaming then
              { m with
                  content := m.content ++ cancellationNotice,
                  isStreaming := some false, isReasoningComplete := some true }
            else m)
          0 st.messages }

/-- The sequence of observable inputs a turn's read loop consumes: received
body chunks, or the user pressing Stop (which aborts the transfer, so the
pending `reader.read()` rejects with `AbortError` and the loop processes
nothing further). -/
inductive StreamItem where
  | chunk : List Char → StreamItem
  | cancel : StreamItem

/-- The read loop of `handleSendMessage` (lines 277-333) under a sequence of
inputs.  Returns the state and whether the loop ended by cancellation. -/
def runTurn (aiMessageId : String) (st : ChatState) : List StreamItem → ChatState × Bool
  | [] => (st, false)
  | StreamItem.cancel :: _ => (handleCancelRequest st, true)
  | StreamItem.chunk c :: rest => runTurn aiMessageId (applyChunk aiMessageId st c) rest

/-- Lines 335-341 (completion patch), 346-348 (AbortError early return) and
382-385 (finally block): the terminal transition after the read loop. -/
def completeTurn (aiMessageId : String) (st : ChatState) (items : List StreamItem) : ChatState :=
  let r := runTurn aiMessageId st items
  let st2 :=
    if r.2 then r.1
    else
      { r.1 with
          messages := patchMsg r.1.messages aiMessageId
            (fun m => { m with isStreaming := some false, isReasoningComplete := some true }) }
  { st2 with isLoading := false, abortController := none }

/-- The outcome of the network interaction of one turn: a body stream (possibly
interrupted by cancellation), a transport failure (`fetch` throwing), or a
non-2xx response (the source throws and both failures land in the same catch
block). -/
inductive TurnOutcome where
  | ok : List StreamItem → TurnOutcome
  | transportFailure : TurnOutcome
  | httpFailure : Nat → TurnOutcome

def errorContent : String :=
  "Sorry, I encountered an error while processing your request. Please try again."

def mkUserMessage (mid : String) (content : String) (ts : Nat) : Message :=
  { id := mid, content := content, role := Role.user, timestamp := ts }

/-- ChatPage.tsx lines 224-232: the placeholder assistant message; `reasoning`
is present (empty) exactly when the selected model is a reasoning model. -/
def mkAiMessage (mid : String) (ts : Nat) (isReasoningModel : Bool) : Message :=
  { id := mid, content := "", role := Role.assistant, timestamp := ts,
    isStreaming := some true,
    reasoning := if isReasoningModel then some "" else none,
    isReasoningComplete := some false }

/-- Lines 205-234, 254, 272-275: append the user message, clear the input,
set loading, append the placeholder assistant message, create the cancellation
token, zero the turn-local accumulators.  Message ids (`Date.now()` based in
the source) are abstracted as parameters. -/
def beginTurn (st : ChatState) (userId aiMessageId : String) (ts : Nat)
    (isReasoningModel : Bool) : ChatState :=
  { st with
    messages := (st.messages ++ [mkUserMessage userId st.inputValue ts])
      ++ [mkAiMessage aiMessageId ts isReasoningModel],
    inputValue := "", uploadedFiles := [], isLoading := true,
    accumulatedContent := "", accumulatedReasoning := "",
    isReasoningPhase := isReasoningModel, buffer := [],
    abortController := some () }

/-- ChatPage.tsx lines 193-386, `handleSendMessage`, as a function of the
network outcome.  The guard clauses (lines 194-203) return the state
unchanged; error outcomes run the catch block (patch the assistant message
with the fixed error text, clear streaming) and every path through the `try`
runs the `finally` block (clear loading, release the token). -/
def handleSendMessage (st : ChatState) (hasToken : Bool) (userId aiMessageId : String)
    (ts : Nat) (isReasoningModel : Bool) (outcome : TurnOutcome) : ChatState :=
  if (st.inputValue.trim = "" ∧ st.uploadedFiles = []) ∨ st.isLoading then st
  else if hasToken = false then st
  else
    let st1 := beginTurn st userId aiMessageId ts isReasoningModel
    match outcome with
    | TurnOutcome.ok items => completeTurn aiMessageId st1 items
    | TurnOutcome.transportFailure =>
      { st1 with
          messages := patchMsg st1.messages aiMessageId
            (fun m => { m with content := errorContent, isStreaming := some false }),
          isLoading := false, abortController := none }
    | TurnOutcome.httpFailure _ =>
      { st1 with
          messages := patchMsg st1.messages aiMessageId
            (fun m => { m with content := errorContent, isStreaming := some false }),
          isLoading := false, abortController := none }

/-! ### Flat-object streams (for the resynchronization analysis)

`neutralFrom st cs = true` says that scanning `cs` from string-state `st`
meets no brace that is outside a string and not escaped, and ends outside a
string with no pending escape.  A flat object is `{ body }` with a neutral
body: a top-level object candidate with no nested (effective) braces. -/

def strStep (st : Bool × Bool) (c : Char) : Bool × Bool :=
  if st.2 then (st.1, false)
  else if c = backslashChar then (st.1, true)
  else if c = quoteChar then (!st.1, false)
  else (st.1, false)

def effBrace (st : Bool × Bool) (c : Char) : Bool :=
  !st.2 && !st.1 && (c == lbrace || c == rbrace)

def neutralFrom : Bool × Bool → List Char → Bool
  | st, [] => !st.1 && !st.2
  | st, c :: cs => !effBrace st c && neutralFrom (strStep st c) cs

def FlatObj (w : List Char) : Prop :=
  ∃ body, w = lbrace :: (body ++ [rbrace]) ∧ neutralFrom (false, false) body = true

/-! ### Concatenation and sample data -/

def strConcat : List String → String
  | [] => ""
  | s :: rest => s ++ strConcat rest

def contentEvent (d : String) : Json :=
  Json.obj [("type", Json.str "content"), ("data", Json.str d)]

def reasoningEvent (d : String) : Json :=
  Json.obj [("type", Json.str "reasoning"), ("data", Json.str d)]

/-- A quiescent page state with a pending input, used to instantiate theorems
with hypotheses at concrete inputs. -/
def chatState0 : ChatState :=
  { messages := [], inputValue := "hi", isLoading := false, uploadedFiles := [],
    abortController := none, accumulatedContent := "", accumulatedReasoning := "",
    isReasoningPhase := false, buffer := [] }

/-- The buffer of the malformed-object isolation scenario:
two well-formed content objects around a balanced but unparseable segment. -/
def bufC3 : List Char :=
  "\x7b\"type\":\"content\",\"data\":\"a\"\x7d\x7bbad\x7d\x7b\"type\":\"content\",\"data\":\"b\"\x7d".data

/-- A stray closing brace followed by text whose nested braces bring the depth
counter back through zero: a resynchronization witness. -/
def bufC10 : List Char :=
  "\x7d\x7b\x7b\x7d\x7b\"a\":1\x7d".data

/-- One flat JSON object, `\x7b"a":1\x7d`. -/
def flatObjA : List Char := "\x7b\"a\":1\x7d".data

/-! ### Proof-infrastructure definitions -/

/-- The simulation relation between the source-faithful indexed scanner state
(at position `i` of `buffer`) and the candidate-accumulating replay `TokSt`:
same flag/depth state, `parsed` is the parse-filtered candidate list, and
`pending` is exactly `buffer.substring(start, i)`. -/
def ScanRel {α : Type} (p : List Char → Option α) (buffer : List Char) (i : Nat)
    (s : ScanSt α) (t : TokSt) : Prop :=
  s.parsed = t.cands.filterMap p ∧ s.depth = t.depth ∧ s.inString = t.inString ∧
    s.escaped = t.escaped ∧ s.start ≤ i ∧
    t.pending = (buffer.drop s.start).take (i - s.start)

/-- Rescanning the pending remainder text from a fresh state reproduces the
scanner's current in-progress state (with no emitted candidates).  This is the
property that makes the remainder-prepending chunk protocol lossless. -/
def RescanInv (s : TokSt) : Prop :=
  tokRun s.pending tokInit = stripped s

/-- The observable result of a scanner state: parsed objects and remainder. -/
def tokObs (t : TokSt) : List Json × List Char :=
  (t.cands.filterMap jsonParse, t.pending)

/-- The transcript ends with a message carrying the streaming assistant id and
satisfying `P`. -/
def LastMsg (aiMessageId : String) (st : ChatState) (P : Message → Prop) : Prop :=
  ∃ front m, st.messages = front ++ [m] ∧ m.id = aiMessageId ∧ P m

/-- The invariant maintained by the read loop during a turn: the cancellation
token is live and the transcript ends with the streaming assistant
placeholder, whose content mirrors the running accumulator. -/
def TurnInv (aiMessageId : String) (st : ChatState) : Prop :=
  st.abortController = some () ∧
    LastMsg aiMessageId st (fun m =>
      m.role = Role.assistant ∧ m.isStreaming = some true ∧
        m.content = st.accumulatedContent)

/-! ## Tokenizer: equivalence of the indexed scanner with its replay core -/

theorem tokRun_nil (s : TokSt) : tokRun [] s = s := rfl

theorem tokRun_cons (c : Char) (cs : List Char) (s : TokSt) :
    tokRun (c :: cs) s = tokRun cs (tokChar c s) := rfl

theorem tokRun_append (xs ys : List Char) (s : TokSt) :
    tokRun (xs ++ ys) s = tokRun ys (tokRun xs s) :=
  List.foldl_append _ _ xs ys

theorem filterMap_emit {α β : Type} (p : α → Option β) (l : List α) (x : α) :
    (match p x with
      | some o => l.filterMap p ++ [o]
      | none => l.filterMap p) = (l ++ [x]).filterMap p := by
  cases hp : p x <;> simp [List.filterMap_append, List.filterMap_cons, hp]

theorem scanChar_rel {α : Type} (p : List Char → Option α) (buffer : List Char)
    (i : Nat) (c : Char) (s : ScanSt α) (t : TokSt)
    (hc : buffer[i]? = some c) (h : ScanRel p buffer i s t) :
    ScanRel p buffer (i + 1) (scanChar p buffer i c s) (tokChar c t) := by
  obtain ⟨sp, sd, ss, si, se⟩ := s
  obtain ⟨tc, td, tp, ti, te⟩ := t
  obtain ⟨h1, h2, h3, h4, h5, h6⟩ := h
  simp only at h1 h2 h3 h4 h5 h6
  subst h1 h2 h3 h4 h6
  have hpend : (buffer.drop ss).take (i - ss + 1)
      = (buffer.drop ss).take (i - ss) ++ [c] := by
    rw [List.take_succ]
    have hg : (buffer.drop ss)[i - ss]? = some c := by
      rw [List.getElem?_drop, Nat.add_sub_cancel' h5, hc]
    rw [hg]
    rfl
  have hi1 : i + 1 - ss = i - ss + 1 := by omega
  simp only [scanChar, tokChar]
  split_ifs with hA hB hC hD hE hF hG <;>
    refine ⟨?_, ?_, ?_, ?_, ?_, ?_⟩ <;>
    first
      | rfl
      | assumption
      | exact Nat.le_succ_of_le h5
      | exact Nat.le_refl _
      | (simp [hi1, hpend]; done)
      | (cases hp : p (List.take (i - ss) (List.drop ss buffer) ++ [c]) <;>
          simp [hi1, hpend, hp])

theorem scanLoop_rel {α : Type} (p : List Char → Option α) (buffer : List Char) :
    ∀ (cs : List Char) (i : Nat) (s : ScanSt α) (t : TokSt),
      buffer.drop i = cs → ScanRel p buffer i s t →
      ScanRel p buffer (i + cs.length) (scanLoop p buffer i cs s) (tokRun cs t)
  | [], i, s, t, _, h => by simpa [scanLoop] using h
  | c :: cs, i, s, t, hdrop, h => by
    have hc : buffer[i]? = some c := by
      have hg := List.getElem?_drop buffer i 0
      rw [hdrop] at hg
      simpa using hg.symm
    have hdrop' : buffer.drop (i + 1) = cs := by
      have hd : List.drop 1 (List.drop i buffer) = List.drop (i + 1) buffer :=
        List.drop_drop 1 i buffer
      rw [hdrop] at hd
      simpa using hd.symm
    have hstep := scanChar_rel p buffer i c s t hc h
    have hrec := scanLoop_rel p buffer cs (i + 1) _ _ hdrop' hstep
    have harith : i + 1 + cs.length = i + (cs.length + 1) := by omega
    rw [harith] at hrec
    simpa [scanLoop, tokRun_cons] using hrec

theorem parseJSONStreamWith_eq_tok {α : Type} (p : List Char → Option α)
    (buffer : List Char) :
    parseJSONStreamWith p buffer
      = ((tokRun buffer tokInit).cands.filterMap p, (tokRun buffer tokInit).pending) := by
  have h0 : ScanRel p buffer 0 ⟨[], 0, 0, false, false⟩ tokInit := by
    refine ⟨rfl, rfl, rfl, rfl, Nat.le_refl 0, ?_⟩
    simp [tokInit]
  have h := scanLoop_rel p buffer buffer 0 ⟨[], 0, 0, false, false⟩ tokInit (by simp) h0
  obtain ⟨h1, _, _, _, h5, h6⟩ := h
  unfold parseJSONStreamWith
  refine Prod.ext h1 ?_
  rw [h6]
  have hlen : (buffer.drop (scanLoop p buffer 0 buffer ⟨[], 0, 0, false, false⟩).start).length
      ≤ 0 + buffer.length - (scanLoop p buffer 0 buffer ⟨[], 0, 0, false, false⟩).start := by
    rw [List.length_drop]
    omega
  rw [List.take_of_length_le hlen]

theorem parseJSONStream_eq_tok (buffer : List Char) :
    parseJSONStream buffer = tokObs (tokRun buffer tokInit) :=
  parseJSONStreamWith_eq_tok jsonParse buffer

/-! ## The chunk protocol: feeding split chunks equals feeding the whole text -/

theorem stripped_stripped (s : TokSt) : stripped (stripped s) = stripped s := rfl

theorem tokChar_cands (c : Char) (s : TokSt) :
    (tokChar c s).cands = s.cands ++ (tokChar c (stripped s)).cands ∧
      stripped (tokChar c s) = stripped (tokChar c (stripped s)) := by
  obtain ⟨tc, td, tp, ti, te⟩ := s
  simp only [tokChar, stripped]
  split_ifs <;> simp

theorem tokRun_writer_stripped : ∀ (cs : List Char) (s : TokSt),
    stripped (tokRun cs s) = stripped (tokRun cs (stripped s))
  | [], s => by simp [tokRun_nil, stripped]
  | c :: cs, s => by
    rw [tokRun_cons, tokRun_cons, tokRun_writer_stripped cs (tokChar c s),
      (tokChar_cands c s).2, ← tokRun_writer_stripped cs (tokChar c (stripped s))]

theorem tokRun_writer_cands : ∀ (cs : List Char) (s : TokSt),
    (tokRun cs s).cands = s.cands ++ (tokRun cs (stripped s)).cands
  | [], s => by simp [tokRun_nil, stripped]
  | c :: cs, s => by
    rw [tokRun_cons, tokRun_cons, tokRun_writer_cands cs (tokChar c s),
      (tokChar_cands c s).1, tokRun_writer_cands cs (tokChar c (stripped s)),
      (tokChar_cands c s).2, List.append_assoc]

theorem rescan_tokInit : RescanInv tokInit := rfl

theorem rescan_tokChar (c : Char) (s : TokSt) (h : RescanInv s) :
    RescanInv (tokChar c s) := by
  obtain ⟨tc, td, tp, ti, te⟩ := s
  unfold RescanInv stripped at h ⊢
  simp only [tokChar]
  split_ifs with hA hB hC hD hE hF <;>
    simp_all [tokRun_append, tokRun_cons, tokRun_nil, tokChar, tokInit]

theorem rescan_tokRun : ∀ (cs : List Char) (s : TokSt),
    RescanInv s → RescanInv (tokRun cs s)
  | [], _, h => h
  | c :: cs, s, h => by
    rw [tokRun_cons]
    exact rescan_tokRun cs (tokChar c s) (rescan_tokChar c s h)

theorem rescan_stripped (s : TokSt) (h : RescanInv s) : RescanInv (stripped s) := by
  unfold RescanInv at h ⊢
  simpa [stripped] using h

theorem feedLoop_eq : ∀ (chunks : List (List Char)) (s : TokSt), RescanInv s →
    feedLoop chunks s.pending = tokObs (tokRun chunks.flatten (stripped s))
  | [], s, _ => by simp [feedLoop, tokObs, tokRun_nil, stripped]
  | c :: cs, s, h => by
    have hps : parseJSONStream (s.pending ++ c) = tokObs (tokRun c (stripped s)) := by
      rw [parseJSONStream_eq_tok, tokRun_append, h]
    have hinv : RescanInv (tokRun c (stripped s)) :=
      rescan_tokRun c (stripped s) (rescan_stripped s h)
    have hrec := feedLoop_eq cs (tokRun c (stripped s)) hinv
    simp only [feedLoop]
    rw [hps]
    have hjoin : (c :: cs).flatten = c ++ cs.flatten := rfl
    rw [hjoin, tokRun_append]
    refine Prod.ext ?_ ?_
    · show (tokObs (tokRun c (stripped s))).1
          ++ (feedLoop cs (tokObs (tokRun c (stripped s))).2).1
        = (tokObs (tokRun cs.flatten (tokRun c (stripped s)))).1
      rw [show (tokObs (tokRun c (stripped s))).2 = (tokRun c (stripped s)).pending from rfl,
        hrec]
      show (tokRun c (stripped s)).cands.filterMap jsonParse
          ++ (tokRun cs.flatten (stripped (tokRun c (stripped s)))).cands.filterMap jsonParse
        = (tokRun cs.flatten (tokRun c (stripped s))).cands.filterMap jsonParse
      rw [tokRun_writer_cands cs.flatten (tokRun c (stripped s)), List.filterMap_append]
    · show (feedLoop cs (tokObs (tokRun c (stripped s))).2).2
        = (tokObs (tokRun cs.flatten (tokRun c (stripped s)))).2
      rw [show (tokObs (tokRun c (stripped s))).2 = (tokRun c (stripped s)).pending from rfl,
        hrec]
      show (tokRun cs.flatten (stripped (tokRun c (stripped s)))).pending
        = (tokRun cs.flatten (tokRun c (stripped s))).pending
      have hw := tokRun_writer_stripped cs.flatten (tokRun c (stripped s))
      have := congrArg TokSt.pending hw
      simpa [stripped] using this.symm

theorem feedChunks_eq_whole (chunks : List (List Char)) :
    feedChunks chunks = parseJSONStream chunks.flatten := by
  have h := feedLoop_eq chunks tokInit rescan_tokInit
  rw [parseJSONStream_eq_tok]
  unfold feedChunks
  have hstr : stripped tokInit = tokInit := rfl
  rw [hstr] at h
  exact h

/-! ## Flat-object streams after a stray closing brace -/

theorem lbrace_ne_backslash : lbrace ≠ backslashChar := by decide

theorem lbrace_ne_quote : lbrace ≠ quoteChar := by decide

theorem rbrace_ne_backslash : rbrace ≠ backslashChar := by decide

theorem rbrace_ne_quote : rbrace ≠ quoteChar := by decide

theorem rbrace_ne_lbrace : rbrace ≠ lbrace := by decide

theorem tokChar_neutral (c : Char) (s : TokSt)
    (hb : effBrace (s.inString, s.escaped) c = false) :
    tokChar c s = { s with
      pending := s.pending ++ [c],
      inString := (strStep (s.inString, s.escaped) c).1,
      escaped := (strStep (s.inString, s.escaped) c).2 } := by
  obtain ⟨tc, td, tp, ti, te⟩ := s
  simp only [effBrace] at hb
  simp only [tokChar, strStep]
  split_ifs with hA hB hC hD hE hF <;> simp_all

theorem tokRun_neutral : ∀ (cs : List Char) (s : TokSt),
    neutralFrom (s.inString, s.escaped) cs = true →
    tokRun cs s = { s with pending := s.pending ++ cs, inString := false, escaped := false }
  | [], s, h => by
    obtain ⟨tc, td, tp, ti, te⟩ := s
    simp only [neutralFrom, Bool.and_eq_true, Bool.not_eq_true'] at h
    obtain ⟨h1, h2⟩ := h
    subst h1; subst h2
    simp [tokRun_nil]
  | c :: cs, s, h => by
    simp only [neutralFrom, Bool.and_eq_true] at h
    obtain ⟨hb, hrest⟩ := h
    have hb' : effBrace (s.inString, s.escaped) c = false := by
      simpa using hb
    rw [tokRun_cons, tokChar_neutral c s hb']
    rw [tokRun_neutral cs _ (by simpa using hrest)]
    simp

theorem tokRun_flatObj (w : List Char) (hw : FlatObj w) (s : TokSt)
    (hi : s.inString = false) (he : s.escaped = false) (hd : s.depth = -1) :
    tokRun w s = { s with pending := s.pending ++ w } := by
  obtain ⟨body, hweq, hneutral⟩ := hw
  subst hweq
  obtain ⟨tc, td, tp, ti, te⟩ := s
  simp only at hi he hd
  subst hi; subst he; subst hd
  rw [tokRun_cons]
  have h1 : tokChar lbrace (⟨tc, -1, tp, false, false⟩ : TokSt)
      = ⟨tc, 0, tp ++ [lbrace], false, false⟩ := by
    simp [tokChar, lbrace_ne_backslash, lbrace_ne_quote]
  rw [h1, tokRun_append]
  rw [tokRun_neutral body ⟨tc, 0, tp ++ [lbrace], false, false⟩ (by simpa using hneutral)]
  have h2 : tokChar rbrace (⟨tc, 0, (tp ++ [lbrace]) ++ body, false, false⟩ : TokSt)
      = ⟨tc, -1, ((tp ++ [lbrace]) ++ body) ++ [rbrace], false, false⟩ := by
    simp [tokChar, rbrace_ne_backslash, rbrace_ne_quote, rbrace_ne_lbrace]
  show tokRun [rbrace] _ = _
  rw [tokRun_cons, tokRun_nil]
  simp only [h2]
  simp

theorem tokRun_flatStream : ∀ (ws : List (List Char)), (∀ w ∈ ws, FlatObj w) →
    ∀ (s : TokSt), s.inString = false → s.escaped = false → s.depth = -1 →
    tokRun ws.flatten s = { s with pending := s.pending ++ ws.flatten }
  | [], _, s, _, _, _ => by simp [tokRun_nil]
  | w :: ws, h, s, hi, he, hd => by
    have hflat : (w :: ws).flatten = w ++ ws.flatten := rfl
    rw [hflat, tokRun_append, tokRun_flatObj w (h w (by simp)) s hi he hd]
    rw [tokRun_flatStream ws (fun x hx => h x (by simp [hx])) _ (by simpa using hi)
      (by simpa using he) (by simpa using hd)]
    simp

/-! ## Claims -/

/-- C1: For every input text, feeding the complete text to the tokenizer in
one call yields the same ordered list of parsed JSON objects as splitting the
text into any sequence of sub-chunks and, for each chunk, feeding the previous
call's remainder concatenated with the chunk — the protocol used by the read
loop (`feedChunks`). -/
theorem claim_C1 (chunks : List (List Char)) :
    (feedChunks chunks).1 = (parseJSONStream chunks.flatten).1 := by
  rw [feedChunks_eq_whole]

/-- C2: For every input buffer, `parseJSONStream` is a total function (the
embedding of "terminates normally and never throws") whose result factors
through the purely structural scan: the parsed output is exactly the
structurally determined candidate list filtered through the JSON parser, and
the remainder is the structurally determined remainder.  Hence a candidate
substring with balanced braces that fails to parse is discarded and scanning
continues with the subsequent candidates and the same remainder: one
malformed object causes the loss of that object only, never termination of
tokenization. -/
theorem claim_C2 (buffer : List Char) :
    parseJSONStream buffer
      = ((scanCandidates buffer).1.filterMap jsonParse, (scanCandidates buffer).2) := by
  rw [parseJSONStream, parseJSONStreamWith_eq_tok]
  unfold scanCandidates
  rw [parseJSONStreamWith_eq_tok]
  have hsome : (tokRun buffer tokInit).cands.filterMap (fun cand => some cand)
      = (tokRun buffer tokInit).cands := List.filterMap_some _
  rw [hsome]

set_option maxRecDepth 20000 in
/-- C3: Feeding the exact buffer
`\x7b"type":"content","data":"a"\x7d\x7bbad\x7d\x7b"type":"content","data":"b"\x7d`
through the tokenizer and event dispatch yields exactly two content events
with data `"a"` and `"b"` in that order (and an empty remainder); the
`\x7bbad\x7d` segment is dropped and affects neither the preceding nor the
following object: dispatching the parsed chunks of this buffer from a fresh
turn accumulates exactly `"ab"`. -/
theorem claim_C3 :
    (parseJSONStream bufC3).1.map (fun j => (chunkType j, getField j "data"))
        = [(some "content", some (Json.str "a")), (some "content", some (Json.str "b"))]
      ∧ (parseJSONStream bufC3).2 = []
      ∧ (((parseJSONStream bufC3).1.foldl (processChunk "2")
            (beginTurn chatState0 "1" "2" 0 false)).messages.getLast?).map Message.content
          = some "ab" :=
  ⟨rfl, rfl, rfl⟩

/-- C8 counterexample: the tokenizer state starts outside a string with no
escape pending, yet scanning a backslash sets the escape-pending flag — the
code sets it unconditionally, not only inside strings, so the backslash does
not leave the state unchanged. -/
theorem claim_C8_cex :
    (⟨[], 0, 0, false, false⟩ : ScanSt Json).inString = false
      ∧ (⟨[], 0, 0, false, false⟩ : ScanSt Json).escaped = false
      ∧ (scanChar jsonParse [backslashChar] 0 backslashChar
          (⟨[], 0, 0, false, false⟩ : ScanSt Json)).escaped = true :=
  ⟨rfl, rfl, rfl⟩

/-- C8 (amended): the tokenizer sets its escape-pending flag on every
backslash character that is not itself escape-consumed, whether or not the
scanner is inside a string; the backslash leaves `parsed`, `depth`, `start`
and `inString` unchanged.  When escape-pending is set, the next character is
consumed unexamined, only clearing the flag. -/
theorem claim_C8 (remaining : List Char) (i : Nat) (s : ScanSt Json) :
    (s.escaped = false →
      scanChar jsonParse remaining i backslashChar s = { s with escaped := true })
    ∧ (s.escaped = true → ∀ c,
      scanChar jsonParse remaining i c s = { s with escaped := false }) := by
  constructor
  · intro h
    simp [scanChar, h]
  · intro h c
    simp [scanChar, h]

/-- Witness for C8 (amended) at concrete states: a backslash inside a string
with no pending escape sets the flag; an escaped quote merely clears it. -/
theorem claim_C8_wit :
    scanChar jsonParse [] 0 backslashChar (⟨[], 2, 1, true, false⟩ : ScanSt Json)
        = { (⟨[], 2, 1, true, false⟩ : ScanSt Json) with escaped := true }
      ∧ scanChar jsonParse [] 0 quoteChar (⟨[], 2, 1, true, true⟩ : ScanSt Json)
        = { (⟨[], 2, 1, true, true⟩ : ScanSt Json) with escaped := false } :=
  ⟨(claim_C8 [] 0 ⟨[], 2, 1, true, false⟩).1 rfl,
   (claim_C8 [] 0 ⟨[], 2, 1, true, true⟩).2 rfl quoteChar⟩

/-- C10 counterexample: in the buffer `\x7d\x7b\x7b\x7d\x7b"a":1\x7d` the
leading `\x7d` drives the depth counter to −1 outside any string and before
any object boundary, yet the scan later emits and successfully parses
`\x7b"a":1\x7d`: the parsed list is non-empty and the remainder is empty, so
the tokenizer did resynchronize. -/
theorem claim_C10_cex :
    parseJSONStream bufC10 = ([Json.obj [("a", Json.num 1 0)]], [])
      ∧ (parseJSONStream bufC10).1 ≠ [] := by
  refine ⟨rfl, ?_⟩
  intro hnil
  rw [show parseJSONStream bufC10 = ([Json.obj [("a", Json.num 1 0)]], []) from rfl] at hnil
  simp at hnil

/-- C10 (amended): a `\x7d` outside a string that drives the depth counter
negative prevents any emission only as long as no surplus opening braces lift
the depth back through zero.  In particular, if everything after the stray
brace is a concatenation of flat objects (no nested braces outside strings) —
the shape of this wire protocol's streams — then no object is ever emitted:
the call returns an empty parsed list with the entire buffer as remainder,
and since the remainder is prepended to every later chunk, any chunking of
such a stream also yields no objects (the tokenizer never resynchronizes).
With nested braces, however, emission can resume (see the counterexample). -/
theorem claim_C10 (ws : List (List Char)) (h : ∀ w ∈ ws, FlatObj w) :
    parseJSONStream (rbrace :: ws.flatten) = ([], rbrace :: ws.flatten)
      ∧ ∀ chunks, chunks.flatten = rbrace :: ws.flatten →
        feedChunks chunks = ([], rbrace :: ws.flatten) := by
  have hfirst : tokChar rbrace tokInit = ⟨[], -1, [rbrace], false, false⟩ := by
    simp [tokChar, tokInit, rbrace_ne_backslash, rbrace_ne_quote, rbrace_ne_lbrace]
  have hrun : tokRun (rbrace :: ws.flatten) tokInit
      = ⟨[], -1, rbrace :: ws.flatten, false, false⟩ := by
    rw [tokRun_cons, hfirst, tokRun_flatStream ws h _ rfl rfl rfl]
    simp
  have hmain : parseJSONStream (rbrace :: ws.flatten) = ([], rbrace :: ws.flatten) := by
    rw [parseJSONStream_eq_tok, hrun]
    rfl
  refine ⟨hmain, ?_⟩
  intro chunks hc
  rw [feedChunks_eq_whole, hc, hmain]

/-- Witness for C10 (amended): a stray closing brace followed by one flat
object yields no parsed objects and the whole buffer as remainder. -/
theorem claim_C10_wit :
    parseJSONStream (rbrace :: List.flatten [flatObjA])
      = ([], rbrace :: List.flatten [flatObjA]) :=
  (claim_C10 [flatObjA] (by
    intro w hw
    rw [List.mem_singleton] at hw
    subst hw
    exact ⟨"\"a\":1".data, rfl, by decide⟩)).1


/-! ## Dispatch and transcript machinery -/

theorem getField_type_of_chunkType (j : Json) (t : String) (h : chunkType j = some t) :
    getField j "type" = some (Json.str t) := by
  unfold chunkType at h
  cases hg : getField j "type" with
  | none => rw [hg] at h; simp at h
  | some v => cases v <;> rw [hg] at h <;> simp_all

theorem chunkType_of_getField (j : Json) (t : String)
    (h : getField j "type" = some (Json.str t)) : chunkType j = some t := by
  unfold chunkType
  rw [h]

theorem patchMsg_last (front : List Message) (m : Message) (aiMessageId : String)
    (f : Message → Message) (h : m.id = aiMessageId) :
    patchMsg (front ++ [m]) aiMessageId f = patchMsg front aiMessageId f ++ [f m] := by
  simp [patchMsg, h]

theorem processChunk_of_reasoning (aiMessageId : String) (st : ChatState) (j : Json)
    (h : getField j "type" = some (Json.str "reasoning")) :
    processChunk aiMessageId st j
      = { st with
            accumulatedReasoning := st.accumulatedReasoning ++ jsStr (getField j "data"),
            messages := patchMsg st.messages aiMessageId
              (fun m => { m with
                reasoning := some (st.accumulatedReasoning ++ jsStr (getField j "data")) }) } := by
  unfold processChunk
  rw [h]
  rfl

theorem processChunk_of_content (aiMessageId : String) (st : ChatState) (j : Json)
    (h : getField j "type" = some (Json.str "content")) :
    processChunk aiMessageId st j
      = (let st1 :=
          if st.isReasoningPhase then
            { st with
                isReasoningPhase := false,
                messages := patchMsg st.messages aiMessageId
                  (fun m => { m with isReasoningComplete := some true }) }
          else st
         { st1 with
            accumulatedContent := st1.accumulatedContent ++ jsStr (getField j "data"),
            messages := patchMsg st1.messages aiMessageId
              (fun m => { m with
                content := st1.accumulatedContent ++ jsStr (getField j "data") }) }) := by
  unfold processChunk
  rw [h]
  rfl

theorem processChunk_of_metadata (aiMessageId : String) (st : ChatState) (j : Json)
    (h : getField j "type" = some (Json.str "metadata")) :
    processChunk aiMessageId st j
      = { st with
            messages := patchMsg st.messages aiMessageId
              (fun m => { m with metadata := getField j "data" }) } := by
  unfold processChunk
  rw [h]
  rfl

theorem processChunk_of_unknown (aiMessageId : String) (st : ChatState) (j : Json)
    (t : String) (h : getField j "type" = some (Json.str t))
    (h1 : t ≠ "reasoning") (h2 : t ≠ "content") (h3 : t ≠ "metadata") :
    processChunk aiMessageId st j = st := by
  unfold processChunk
  rw [h]
  simp [h1, h2, h3]

theorem processChunk_of_untyped (aiMessageId : String) (st : ChatState) (j : Json)
    (h : chunkType j = none) :
    processChunk aiMessageId st j = st := by
  unfold chunkType at h
  unfold processChunk
  cases hg : getField j "type" with
  | none => rfl
  | some v => cases v <;> rw [hg] at h <;> simp_all

theorem procMsg_of_reasoning (st : ChatState) (j : Json) (m : Message)
    (h : getField j "type" = some (Json.str "reasoning")) :
    procMsg st j m
      = { m with reasoning := some (st.accumulatedReasoning ++ jsStr (getField j "data")) } := by
  unfold procMsg
  rw [h]
  rfl

theorem procMsg_of_content (st : ChatState) (j : Json) (m : Message)
    (h : getField j "type" = some (Json.str "content")) :
    procMsg st j m
      = (let m1 := if st.isReasoningPhase then { m with isReasoningComplete := some true } else m
         { m1 with content := st.accumulatedContent ++ jsStr (getField j "data") }) := by
  unfold procMsg
  rw [h]
  rfl

theorem procMsg_of_metadata (st : ChatState) (j : Json) (m : Message)
    (h : getField j "type" = some (Json.str "metadata")) :
    procMsg st j m = { m with metadata := getField j "data" } := by
  unfold procMsg
  rw [h]
  rfl

theorem procMsg_of_unknown (st : ChatState) (j : Json) (m : Message)
    (t : String) (h : getField j "type" = some (Json.str t))
    (h1 : t ≠ "reasoning") (h2 : t ≠ "content") (h3 : t ≠ "metadata") :
    procMsg st j m = m := by
  unfold procMsg
  rw [h]
  simp [h1, h2, h3]

theorem procMsg_of_untyped (st : ChatState) (j : Json) (m : Message)
    (h : chunkType j = none) :
    procMsg st j m = m := by
  unfold chunkType at h
  unfold procMsg
  cases hg : getField j "type" with
  | none => rfl
  | some v => cases v <;> rw [hg] at h <;> simp_all

theorem procMsg_id (st : ChatState) (j : Json) (m : Message) :
    (procMsg st j m).id = m.id := by
  cases hc : chunkType j with
  | none => rw [procMsg_of_untyped st j m hc]
  | some t =>
    have hg := getField_type_of_chunkType j t hc
    by_cases h1 : t = "reasoning"
    · subst h1; rw [procMsg_of_reasoning st j m hg]
    · by_cases h2 : t = "content"
      · subst h2
        rw [procMsg_of_content st j m hg]
        by_cases h3 : st.isReasoningPhase <;> simp [h3]
      · by_cases h4 : t = "metadata"
        · subst h4; rw [procMsg_of_metadata st j m hg]
        · rw [procMsg_of_unknown st j m t hg h1 h2 h4]

theorem procMsg_role (st : ChatState) (j : Json) (m : Message) :
    (procMsg st j m).role = m.role := by
  cases hc : chunkType j with
  | none => rw [procMsg_of_untyped st j m hc]
  | some t =>
    have hg := getField_type_of_chunkType j t hc
    by_cases h1 : t = "reasoning"
    · subst h1; rw [procMsg_of_reasoning st j m hg]
    · by_cases h2 : t = "content"
      · subst h2
        rw [procMsg_of_content st j m hg]
        by_cases h3 : st.isReasoningPhase <;> simp [h3]
      · by_cases h4 : t = "metadata"
        · subst h4; rw [procMsg_of_metadata st j m hg]
        · rw [procMsg_of_unknown st j m t hg h1 h2 h4]

theorem procMsg_isStreaming (st : ChatState) (j : Json) (m : Message) :
    (procMsg st j m).isStreaming = m.isStreaming := by
  cases hc : chunkType j with
  | none => rw [procMsg_of_untyped st j m hc]
  | some t =>
    have hg := getField_type_of_chunkType j t hc
    by_cases h1 : t = "reasoning"
    · subst h1; rw [procMsg_of_reasoning st j m hg]
    · by_cases h2 : t = "content"
      · subst h2
        rw [procMsg_of_content st j m hg]
        by_cases h3 : st.isReasoningPhase <;> simp [h3]
      · by_cases h4 : t = "metadata"
        · subst h4; rw [procMsg_of_metadata st j m hg]
        · rw [procMsg_of_unknown st j m t hg h1 h2 h4]

theorem procMsg_content (st : ChatState) (j : Json) (m : Message) :
    (procMsg st j m).content
      = (if chunkType j = some "content"
          then st.accumulatedContent ++ jsStr (getField j "data")
          else m.content) := by
  cases hc : chunkType j with
  | none => rw [procMsg_of_untyped st j m hc]; simp
  | some t =>
    have hg := getField_type_of_chunkType j t hc
    by_cases h1 : t = "reasoning"
    · subst h1; rw [procMsg_of_reasoning st j m hg]; simp
    · by_cases h2 : t = "content"
      · subst h2
        rw [procMsg_of_content st j m hg]
        by_cases h3 : st.isReasoningPhase <;> simp [h3]
      · by_cases h4 : t = "metadata"
        · subst h4; rw [procMsg_of_metadata st j m hg]; simp
        · rw [procMsg_of_unknown st j m t hg h1 h2 h4]; simp [h2]

theorem procMsg_reasoning (st : ChatState) (j : Json) (m : Message) :
    (procMsg st j m).reasoning
      = (if chunkType j = some "reasoning"
          then some (st.accumulatedReasoning ++ jsStr (getField j "data"))
          else m.reasoning) := by
  cases hc : chunkType j with
  | none => rw [procMsg_of_untyped st j m hc]; simp
  | some t =>
    have hg := getField_type_of_chunkType j t hc
    by_cases h1 : t = "reasoning"
    · subst h1; rw [procMsg_of_reasoning st j m hg]; simp
    · by_cases h2 : t = "content"
      · subst h2
        rw [procMsg_of_content st j m hg]
        by_cases h3 : st.isReasoningPhase <;> simp [h3, h1]
      · by_cases h4 : t = "metadata"
        · subst h4; rw [procMsg_of_metadata st j m hg]; simp [h1]
        · rw [procMsg_of_unknown st j m t hg h1 h2 h4]; simp [h1]

theorem processChunk_ctrl (aiMessageId : String) (st : ChatState) (j : Json) :
    (processChunk aiMessageId st j).abortController = st.abortController
      ∧ (processChunk aiMessageId st j).isLoading = st.isLoading
      ∧ (processChunk aiMessageId st j).buffer = st.buffer := by
  cases hc : chunkType j with
  | none => rw [processChunk_of_untyped aiMessageId st j hc]; exact ⟨rfl, rfl, rfl⟩
  | some t =>
    have hg := getField_type_of_chunkType j t hc
    by_cases h1 : t = "reasoning"
    · subst h1; rw [processChunk_of_reasoning aiMessageId st j hg]; exact ⟨rfl, rfl, rfl⟩
    · by_cases h2 : t = "content"
      · subst h2
        rw [processChunk_of_content aiMessageId st j hg]
        by_cases h3 : st.isReasoningPhase <;> simp [h3]
      · by_cases h4 : t = "metadata"
        · subst h4; rw [processChunk_of_metadata aiMessageId st j hg]; exact ⟨rfl, rfl, rfl⟩
        · rw [processChunk_of_unknown aiMessageId st j t hg h1 h2 h4]; exact ⟨rfl, rfl, rfl⟩

theorem processChunk_acc (aiMessageId : String) (st : ChatState) (j : Json) :
    (processChunk aiMessageId st j).accumulatedContent
      = (if chunkType j = some "content"
          then st.accumulatedContent ++ jsStr (getField j "data")
          else st.accumulatedContent) := by
  cases hc : chunkType j with
  | none => rw [processChunk_of_untyped aiMessageId st j hc]; simp
  | some t =>
    have hg := getField_type_of_chunkType j t hc
    by_cases h1 : t = "reasoning"
    · subst h1; rw [processChunk_of_reasoning aiMessageId st j hg]; simp
    · by_cases h2 : t = "content"
      · subst h2
        rw [processChunk_of_content aiMessageId st j hg]
        by_cases h3 : st.isReasoningPhase <;> simp [h3]
      · by_cases h4 : t = "metadata"
        · subst h4; rw [processChunk_of_metadata aiMessageId st j hg]; simp
        · rw [processChunk_of_unknown aiMessageId st j t hg h1 h2 h4]; simp [h2]

theorem processChunk_phase (aiMessageId : String) (st : ChatState) (j : Json) :
    (processChunk aiMessageId st j).isReasoningPhase
      = (if chunkType j = some "content" then false else st.isReasoningPhase) := by
  cases hc : chunkType j with
  | none => rw [processChunk_of_untyped aiMessageId st j hc]; simp
  | some t =>
    have hg := getField_type_of_chunkType j t hc
    by_cases h1 : t = "reasoning"
    · subst h1; rw [processChunk_of_reasoning aiMessageId st j hg]; simp
    · by_cases h2 : t = "content"
      · subst h2
        rw [processChunk_of_content aiMessageId st j hg]
        by_cases h3 : st.isReasoningPhase <;> simp [h3]
      · by_cases h4 : t = "metadata"
        · subst h4; rw [processChunk_of_metadata aiMessageId st j hg]; simp
        · rw [processChunk_of_unknown aiMessageId st j t hg h1 h2 h4]; simp [h2]


theorem processChunk_messages_reasoning (aiMessageId : String) (st : ChatState) (j : Json)
    (h : getField j "type" = some (Json.str "reasoning")) :
    (processChunk aiMessageId st j).messages
      = patchMsg st.messages aiMessageId
          (fun m => { m with
            reasoning := some (st.accumulatedReasoning ++ jsStr (getField j "data")) }) := by
  rw [processChunk_of_reasoning aiMessageId st j h]

theorem processChunk_messages_content (aiMessageId : String) (st : ChatState) (j : Json)
    (h : getField j "type" = some (Json.str "content")) :
    (processChunk aiMessageId st j).messages
      = (if st.isReasoningPhase then
          patchMsg (patchMsg st.messages aiMessageId
              (fun m => { m with isReasoningComplete := some true })) aiMessageId
            (fun m => { m with
              content := st.accumulatedContent ++ jsStr (getField j "data") })
         else
          patchMsg st.messages aiMessageId
            (fun m => { m with
              content := st.accumulatedContent ++ jsStr (getField j "data") })) := by
  rw [processChunk_of_content aiMessageId st j h]
  by_cases h3 : st.isReasoningPhase <;> simp [h3]

theorem processChunk_messages_metadata (aiMessageId : String) (st : ChatState) (j : Json)
    (h : getField j "type" = some (Json.str "metadata")) :
    (processChunk aiMessageId st j).messages
      = patchMsg st.messages aiMessageId
          (fun m => { m with metadata := getField j "data" }) := by
  rw [processChunk_of_metadata aiMessageId st j h]


theorem processChunk_last (aiMessageId : String) (st : ChatState) (j : Json)
    (front : List Message) (m : Message)
    (hmsg : st.messages = front ++ [m]) (hid : m.id = aiMessageId) :
    ∃ front', (processChunk aiMessageId st j).messages = front' ++ [procMsg st j m] := by
  cases hc : chunkType j with
  | none =>
    rw [processChunk_of_untyped aiMessageId st j hc, procMsg_of_untyped st j m hc]
    exact ⟨front, hmsg⟩
  | some t =>
    have hg := getField_type_of_chunkType j t hc
    by_cases h1 : t = "reasoning"
    · subst h1
      rw [processChunk_messages_reasoning aiMessageId st j hg, procMsg_of_reasoning st j m hg,
        hmsg, patchMsg_last front m aiMessageId _ hid]
      exact ⟨_, rfl⟩
    · by_cases h2 : t = "content"
      · subst h2
        have hmsgs := processChunk_messages_content aiMessageId st j hg
        have hpm := procMsg_of_content st j m hg
        by_cases h3 : st.isReasoningPhase
        · simp only [h3, if_true] at hmsgs hpm
          rw [hmsgs, hpm, hmsg, patchMsg_last front m aiMessageId _ hid]
          rw [patchMsg_last (patchMsg front aiMessageId
                (fun mm => { mm with isReasoningComplete := some true }))
              { m with isReasoningComplete := some true } aiMessageId
              (fun mm => { mm with
                content := st.accumulatedContent ++ jsStr (getField j "data") }) hid]
          exact ⟨_, rfl⟩
        · simp only [h3, Bool.false_eq_true, if_false] at hmsgs hpm
          rw [hmsgs, hpm, hmsg, patchMsg_last front m aiMessageId _ hid]
          exact ⟨_, rfl⟩
      · by_cases h4 : t = "metadata"
        · subst h4
          rw [processChunk_messages_metadata aiMessageId st j hg, procMsg_of_metadata st j m hg,
            hmsg, patchMsg_last front m aiMessageId _ hid]
          exact ⟨_, rfl⟩
        · rw [processChunk_of_unknown aiMessageId st j t hg h1 h2 h4,
            procMsg_of_unknown st j m t hg h1 h2 h4]
          exact ⟨front, hmsg⟩

theorem processChunk_turnInv (aiMessageId : String) (st : ChatState) (j : Json)
    (h : TurnInv aiMessageId st) : TurnInv aiMessageId (processChunk aiMessageId st j) := by
  unfold TurnInv LastMsg at h ⊢
  obtain ⟨hctl, front, m, hmsg, hid, hrole, hstream, hcontent⟩ := h
  refine ⟨?_, ?_⟩
  · rw [(processChunk_ctrl aiMessageId st j).1, hctl]
  · obtain ⟨front', hmsg'⟩ := processChunk_last aiMessageId st j front m hmsg hid
    refine ⟨front', procMsg st j m, hmsg', ?_, ?_, ?_, ?_⟩
    · rw [procMsg_id]; exact hid
    · rw [procMsg_role]; exact hrole
    · rw [procMsg_isStreaming]; exact hstream
    · rw [procMsg_content, processChunk_acc]
      by_cases hcc : chunkType j = some "content" <;> simp [hcc, hcontent]

theorem foldl_turnInv (aiMessageId : String) : ∀ (js : List Json) (st : ChatState),
    TurnInv aiMessageId st → TurnInv aiMessageId (js.foldl (processChunk aiMessageId) st)
  | [], _, h => h
  | j :: js, st, h => by
    rw [List.foldl_cons]
    exact foldl_turnInv aiMessageId js _ (processChunk_turnInv aiMessageId st j h)

theorem applyChunk_turnInv (aiMessageId : String) (st : ChatState) (chunk : List Char)
    (h : TurnInv aiMessageId st) : TurnInv aiMessageId (applyChunk aiMessageId st chunk) := by
  unfold applyChunk
  apply foldl_turnInv
  unfold TurnInv LastMsg at h ⊢
  obtain ⟨hctl, front, m, hmsg, hid, hP⟩ := h
  exact ⟨hctl, front, m, hmsg, hid, hP⟩

theorem beginTurn_turnInv (st : ChatState) (userId aiMessageId : String) (ts : Nat)
    (isReasoningModel : Bool) :
    TurnInv aiMessageId (beginTurn st userId aiMessageId ts isReasoningModel) := by
  unfold TurnInv LastMsg beginTurn
  exact ⟨rfl, st.messages ++ [mkUserMessage userId st.inputValue ts],
    mkAiMessage aiMessageId ts isReasoningModel, rfl, rfl, rfl, rfl, rfl⟩

theorem runTurn_chunks_flag (aiMessageId : String) : ∀ (xs : List (List Char)) (st : ChatState),
    (runTurn aiMessageId st (xs.map StreamItem.chunk)).2 = false
  | [], _ => rfl
  | x :: xs, st => runTurn_chunks_flag aiMessageId xs (applyChunk aiMessageId st x)

theorem runTurn_chunks_turnInv (aiMessageId : String) :
    ∀ (xs : List (List Char)) (st : ChatState), TurnInv aiMessageId st →
    TurnInv aiMessageId (runTurn aiMessageId st (xs.map StreamItem.chunk)).1
  | [], _, h => h
  | x :: xs, st, h =>
    runTurn_chunks_turnInv aiMessageId xs (applyChunk aiMessageId st x)
      (applyChunk_turnInv aiMessageId st x h)

theorem runTurn_append (aiMessageId : String) :
    ∀ (xs : List (List Char)) (st : ChatState) (rest : List StreamItem),
    runTurn aiMessageId st (xs.map StreamItem.chunk ++ rest)
      = runTurn aiMessageId (runTurn aiMessageId st (xs.map StreamItem.chunk)).1 rest
  | [], _, _ => rfl
  | x :: xs, st, rest => runTurn_append aiMessageId xs (applyChunk aiMessageId st x) rest

theorem mapWithIndex_append (f : Nat → Message → Message) :
    ∀ (l : List Message) (i : Nat) (a : Message),
    mapWithIndex f i (l ++ [a]) = mapWithIndex f i l ++ [f (i + l.length) a]
  | [], i, a => by simp [mapWithIndex]
  | b :: l, i, a => by
    show f i b :: mapWithIndex f (i + 1) (l ++ [a])
        = mapWithIndex f i (b :: l) ++ [f (i + (b :: l).length) a]
    rw [mapWithIndex_append f l (i + 1) a]
    have harith : i + 1 + l.length = i + (b :: l).length := by simp; omega
    rw [harith]
    simp [mapWithIndex]

theorem handleCancelRequest_out (aiMessageId : String) (st : ChatState)
    (h : TurnInv aiMessageId st) :
    (handleCancelRequest st).abortController = none
      ∧ (handleCancelRequest st).isLoading = false
      ∧ ((handleCancelRequest st).messages.getLast?).map Message.content
          = some (st.accumulatedContent ++ cancellationNotice)
      ∧ ((handleCancelRequest st).messages.getLast?).map Message.isStreaming
          = some (some false)
      ∧ ((handleCancelRequest st).messages.getLast?).map Message.isReasoningComplete
          = some (some true) := by
  unfold TurnInv LastMsg at h
  obtain ⟨hctl, front, m, hmsg, hid, hrole, hstream, hcontent⟩ := h
  unfold handleCancelRequest
  rw [hctl]
  refine ⟨rfl, rfl, ?_, ?_, ?_⟩ <;>
  · show ((mapWithIndex _ 0 st.messages).getLast?).map _ = _
    rw [hmsg, mapWithIndex_append]
    rw [List.getLast?_concat]
    have hcond : 0 + front.length = (front ++ [m]).length - 1
        ∧ m.role = Role.assistant ∧ truthy m.isStreaming = true := by
      refine ⟨by simp, hrole, by rw [hstream]; rfl⟩
    rw [if_pos hcond]
    simp [hcontent]

theorem patchMsg_map_field {β : Type} (l : List Message) (mid : String)
    (f : Message → Message) (proj : Message → β) (hf : ∀ m, proj (f m) = proj m) :
    (patchMsg l mid f).map proj = l.map proj := by
  unfold patchMsg
  rw [List.map_map]
  apply List.map_congr_left
  intro m _
  by_cases hm : m.id = mid <;> simp [hm, hf]

theorem foldl_content (aiMessageId : String) : ∀ (ds : List String) (st : ChatState),
    ((ds.map contentEvent).foldl (processChunk aiMessageId) st).accumulatedContent
      = st.accumulatedContent ++ strConcat ds
  | [], st => by
    show st.accumulatedContent = st.accumulatedContent ++ strConcat []
    rw [show strConcat [] = "" from rfl, String.append_empty]
  | d :: ds, st => by
    rw [List.map_cons, List.foldl_cons, foldl_content aiMessageId ds _]
    have hacc := processChunk_acc aiMessageId st (contentEvent d)
    have hct : chunkType (contentEvent d) = some "content" := rfl
    rw [hct, if_pos rfl] at hacc
    rw [hacc]
    have hdata : jsStr (getField (contentEvent d) "data") = d := rfl
    rw [hdata]
    show (st.accumulatedContent ++ d) ++ strConcat ds
        = st.accumulatedContent ++ (d ++ strConcat ds)
    rw [String.append_assoc]

theorem foldl_reasoning_some (aiMessageId : String) :
    ∀ (js : List Json) (st : ChatState) (front : List Message) (m : Message),
    st.messages = front ++ [m] → m.id = aiMessageId → (∃ r, m.reasoning = some r) →
    ∃ front' m', (js.foldl (processChunk aiMessageId) st).messages = front' ++ [m']
      ∧ m'.id = aiMessageId ∧ ∃ r, m'.reasoning = some r
  | [], _, front, m, hmsg, hid, hr => ⟨front, m, hmsg, hid, hr⟩
  | j :: js, st, front, m, hmsg, hid, hr => by
    rw [List.foldl_cons]
    obtain ⟨front', hmsg'⟩ := processChunk_last aiMessageId st j front m hmsg hid
    apply foldl_reasoning_some aiMessageId js _ front' (procMsg st j m) hmsg'
      (by rw [procMsg_id]; exact hid)
    rw [procMsg_reasoning]
    obtain ⟨r, hrr⟩ := hr
    by_cases hcc : chunkType j = some "reasoning" <;> simp [hcc, hrr]

theorem foldl_reasoning_none (aiMessageId : String) :
    ∀ (js : List Json) (st : ChatState) (front : List Message) (m : Message),
    st.messages = front ++ [m] → m.id = aiMessageId → m.reasoning = none →
    (∀ j ∈ js, chunkType j ≠ some "reasoning") →
    ∃ front' m', (js.foldl (processChunk aiMessageId) st).messages = front' ++ [m']
      ∧ m'.id = aiMessageId ∧ m'.reasoning = none
  | [], _, front, m, hmsg, hid, hr, _ => ⟨front, m, hmsg, hid, hr⟩
  | j :: js, st, front, m, hmsg, hid, hr, hev => by
    rw [List.foldl_cons]
    obtain ⟨front', hmsg'⟩ := processChunk_last aiMessageId st j front m hmsg hid
    apply foldl_reasoning_none aiMessageId js _ front' (procMsg st j m) hmsg'
      (by rw [procMsg_id]; exact hid) ?_ (fun x hx => hev x (by simp [hx]))
    rw [procMsg_reasoning, if_neg (hev j (by simp)), hr]

/-- C4: Every reasoning event updates only the message's `reasoning` field —
the transcript patch sets `reasoning` to the new cumulative string and leaves
every message's `content` (and the content accumulator and the phase flag)
unchanged.  The first content event of a reasoning phase flips the phase flag
and patches `isReasoningComplete := true`; once the phase flag is off, content
events patch only `content` and leave every message's `isReasoningComplete`
unchanged, and the phase flag never turns back on — so `isReasoningComplete`
is set exactly once, by the first content event. -/
theorem claim_C4 (aiMessageId : String) (st : ChatState) (j : Json) :
    (chunkType j = some "reasoning" →
      (processChunk aiMessageId st j).messages
          = patchMsg st.messages aiMessageId
              (fun m => { m with
                reasoning := some (st.accumulatedReasoning ++ jsStr (getField j "data")) })
        ∧ (processChunk aiMessageId st j).messages.map Message.content
          = st.messages.map Message.content
        ∧ (processChunk aiMessageId st j).accumulatedContent = st.accumulatedContent
        ∧ (processChunk aiMessageId st j).isReasoningPhase = st.isReasoningPhase)
    ∧ (chunkType j = some "content" → st.isReasoningPhase = true →
        (processChunk aiMessageId st j).isReasoningPhase = false
          ∧ (processChunk aiMessageId st j).messages
            = patchMsg (patchMsg st.messages aiMessageId
                  (fun m => { m with isReasoningComplete := some true })) aiMessageId
                (fun m => { m with
                  content := st.accumulatedContent ++ jsStr (getField j "data") }))
    ∧ (chunkType j = some "content" → st.isReasoningPhase = false →
        (processChunk aiMessageId st j).isReasoningPhase = false
          ∧ (processChunk aiMessageId st j).messages
            = patchMsg st.messages aiMessageId
                (fun m => { m with
                  content := st.accumulatedContent ++ jsStr (getField j "data") })
          ∧ (processChunk aiMessageId st j).messages.map Message.isReasoningComplete
            = st.messages.map Message.isReasoningComplete) := by
  refine ⟨?_, ?_, ?_⟩
  · intro h
    have hg := getField_type_of_chunkType j "reasoning" h
    refine ⟨processChunk_messages_reasoning aiMessageId st j hg, ?_, ?_, ?_⟩
    · rw [processChunk_messages_reasoning aiMessageId st j hg]
      exact patchMsg_map_field _ _ _ _ (fun m => rfl)
    · rw [processChunk_acc, h]
      simp
    · rw [processChunk_phase, h]
      simp
  · intro h hph
    have hg := getField_type_of_chunkType j "content" h
    refine ⟨?_, ?_⟩
    · rw [processChunk_phase, h, if_pos rfl]
    · rw [processChunk_messages_content aiMessageId st j hg, if_pos hph]
  · intro h hph
    have hg := getField_type_of_chunkType j "content" h
    refine ⟨?_, ?_, ?_⟩
    · rw [processChunk_phase, h, if_pos rfl]
    · rw [processChunk_messages_content aiMessageId st j hg, hph]
      simp
    · rw [processChunk_messages_content aiMessageId st j hg, hph]
      simp only [Bool.false_eq_true, if_false]
      exact patchMsg_map_field _ _ _ _ (fun m => rfl)

/-- Witness for C4 at concrete inputs: a reasoning event on a fresh reasoning
turn, the first content event of a reasoning phase, and a content event with
the phase flag off. -/
theorem claim_C4_wit :
    ((processChunk "2" chatState0 (reasoningEvent "R")).messages
        = patchMsg chatState0.messages "2"
            (fun m => { m with
              reasoning := some (chatState0.accumulatedReasoning
                ++ jsStr (getField (reasoningEvent "R") "data")) })
      ∧ (processChunk "2" chatState0 (reasoningEvent "R")).messages.map Message.content
        = chatState0.messages.map Message.content
      ∧ (processChunk "2" chatState0 (reasoningEvent "R")).accumulatedContent
        = chatState0.accumulatedContent
      ∧ (processChunk "2" chatState0 (reasoningEvent "R")).isReasoningPhase
        = chatState0.isReasoningPhase)
    ∧ ((processChunk "2" { chatState0 with isReasoningPhase := true }
          (contentEvent "C")).isReasoningPhase = false
      ∧ (processChunk "2" { chatState0 with isReasoningPhase := true }
            (contentEvent "C")).messages
        = patchMsg (patchMsg { chatState0 with isReasoningPhase := true }.messages "2"
              (fun m => { m with isReasoningComplete := some true })) "2"
            (fun m => { m with
              content := { chatState0 with isReasoningPhase := true }.accumulatedContent
                ++ jsStr (getField (contentEvent "C") "data") }))
    ∧ ((processChunk "2" chatState0 (contentEvent "C")).isReasoningPhase = false
      ∧ (processChunk "2" chatState0 (contentEvent "C")).messages
        = patchMsg chatState0.messages "2"
            (fun m => { m with
              content := chatState0.accumulatedContent
                ++ jsStr (getField (contentEvent "C") "data") })
      ∧ (processChunk "2" chatState0 (contentEvent "C")).messages.map
            Message.isReasoningComplete
        = chatState0.messages.map Message.isReasoningComplete) :=
  ⟨(claim_C4 "2" chatState0 (reasoningEvent "R")).1 rfl,
   (claim_C4 "2" { chatState0 with isReasoningPhase := true } (contentEvent "C")).2.1 rfl rfl,
   (claim_C4 "2" chatState0 (contentEvent "C")).2.2 rfl rfl⟩

/-- C5: After any sequence of content events with texts `d1, ..., dn`
dispatched on a fresh turn, the stored content of the streaming assistant
message equals the concatenation `d1 ++ ... ++ dn` — each store update writes
the full cumulative accumulator, which equals that concatenation — not the
last delta alone. -/
theorem claim_C5 (st : ChatState) (userId aiMessageId : String) (ts : Nat)
    (isReasoningModel : Bool) (ds : List String) :
    (((ds.map contentEvent).foldl (processChunk aiMessageId)
        (beginTurn st userId aiMessageId ts isReasoningModel)).messages.getLast?).map
        Message.content = some (strConcat ds)
      ∧ ((ds.map contentEvent).foldl (processChunk aiMessageId)
          (beginTurn st userId aiMessageId ts isReasoningModel)).accumulatedContent
        = strConcat ds := by
  have hacc := foldl_content aiMessageId ds (beginTurn st userId aiMessageId ts isReasoningModel)
  rw [show (beginTurn st userId aiMessageId ts isReasoningModel).accumulatedContent = ""
    from rfl, String.empty_append] at hacc
  refine ⟨?_, hacc⟩
  have hinv := foldl_turnInv aiMessageId (ds.map contentEvent) _
    (beginTurn_turnInv st userId aiMessageId ts isReasoningModel)
  unfold TurnInv LastMsg at hinv
  obtain ⟨-, front, m, hmsg, -, -, -, hcontent⟩ := hinv
  rw [hmsg, List.getLast?_concat]
  simp [hcontent, hacc]

/-- C6: If a turn is cancelled mid-stream, the read loop short-circuits at the
cancellation — the run over `chunks ++ cancel :: more` equals the cancel patch
applied to the state after `chunks`, so the extra items `more` are never
applied — and the streaming assistant message ends with `isStreaming = false`,
`isReasoningComplete = true`, and content equal to the accumulated content
followed by the cancellation notice. -/
theorem claim_C6 (st : ChatState) (userId aiMessageId : String) (ts : Nat)
    (isReasoningModel : Bool) (chunks : List (List Char)) (more : List StreamItem) :
    (runTurn aiMessageId (beginTurn st userId aiMessageId ts isReasoningModel)
        (chunks.map StreamItem.chunk ++ StreamItem.cancel :: more)
      = (handleCancelRequest
          (runTurn aiMessageId (beginTurn st userId aiMessageId ts isReasoningModel)
            (chunks.map StreamItem.chunk)).1, true))
    ∧ (((runTurn aiMessageId (beginTurn st userId aiMessageId ts isReasoningModel)
          (chunks.map StreamItem.chunk ++ StreamItem.cancel :: more)).1.messages.getLast?).map
          Message.content
        = some ((runTurn aiMessageId (beginTurn st userId aiMessageId ts isReasoningModel)
            (chunks.map StreamItem.chunk)).1.accumulatedContent ++ cancellationNotice))
    ∧ (((runTurn aiMessageId (beginTurn st userId aiMessageId ts isReasoningModel)
          (chunks.map StreamItem.chunk ++ StreamItem.cancel :: more)).1.messages.getLast?).map
          Message.isStreaming = some (some false))
    ∧ (((runTurn aiMessageId (beginTurn st userId aiMessageId ts isReasoningModel)
          (chunks.map StreamItem.chunk ++ StreamItem.cancel :: more)).1.messages.getLast?).map
          Message.isReasoningComplete = some (some true)) := by
  have hinv := runTurn_chunks_turnInv aiMessageId chunks _
    (beginTurn_turnInv st userId aiMessageId ts isReasoningModel)
  have hsplit : runTurn aiMessageId (beginTurn st userId aiMessageId ts isReasoningModel)
      (chunks.map StreamItem.chunk ++ StreamItem.cancel :: more)
      = (handleCancelRequest
          (runTurn aiMessageId (beginTurn st userId aiMessageId ts isReasoningModel)
            (chunks.map StreamItem.chunk)).1, true) := by
    rw [runTurn_append]
    rfl
  have hout := handleCancelRequest_out aiMessageId _ hinv
  exact ⟨hsplit, by rw [hsplit]; exact hout.2.2.1, by rw [hsplit]; exact hout.2.2.2.1,
    by rw [hsplit]; exact hout.2.2.2.2⟩

/-- C7 counterexample: a turn created with a non-reasoning model starts with
no `reasoning` field, but processing a single reasoning stream event makes the
field appear (set to the event's text) — the dispatch patches `reasoning`
without consulting the turn's capability, so stream events can violate the
claimed invariant. -/
theorem claim_C7_cex :
    ((beginTurn chatState0 "1" "2" 0 false).messages.getLast?).map Message.reasoning
        = some none
      ∧ (((processChunk "2" (beginTurn chatState0 "1" "2" 0 false)
            (reasoningEvent "x")).messages.getLast?).map Message.reasoning)
        = some (some "x") :=
  ⟨rfl, rfl⟩

/-- C7 (amended): the `reasoning` field is present at turn creation exactly
when the turn is reasoning-enabled.  For a reasoning-enabled turn it is
present at every point of the turn; for a non-reasoning turn it remains
absent as long as the stream delivers no reasoning events (but a reasoning
event does make it appear — see the counterexample). -/
theorem claim_C7 (st : ChatState) (userId aiMessageId : String) (ts : Nat)
    (isReasoningModel : Bool) (events : List Json) :
    (isReasoningModel = true →
      ∃ r, (((events.foldl (processChunk aiMessageId)
          (beginTurn st userId aiMessageId ts isReasoningModel)).messages.getLast?).map
          Message.reasoning) = some (some r))
    ∧ (isReasoningModel = false →
      (∀ j ∈ events, chunkType j ≠ some "reasoning") →
      (((events.foldl (processChunk aiMessageId)
          (beginTurn st userId aiMessageId ts isReasoningModel)).messages.getLast?).map
          Message.reasoning) = some none) := by
  constructor
  · intro hmodel
    subst hmodel
    obtain ⟨front', m', hmsg', -, r, hr⟩ :=
      foldl_reasoning_some aiMessageId events (beginTurn st userId aiMessageId ts true)
        (st.messages ++ [mkUserMessage userId st.inputValue ts])
        (mkAiMessage aiMessageId ts true) rfl rfl ⟨"", rfl⟩
    refine ⟨r, ?_⟩
    rw [hmsg', List.getLast?_concat]
    simp [hr]
  · intro hmodel hev
    subst hmodel
    obtain ⟨front', m', hmsg', -, hr⟩ :=
      foldl_reasoning_none aiMessageId events (beginTurn st userId aiMessageId ts false)
        (st.messages ++ [mkUserMessage userId st.inputValue ts])
        (mkAiMessage aiMessageId ts false) rfl rfl rfl hev
    rw [hmsg', List.getLast?_concat]
    simp [hr]

/-- Witness for C7 (amended): a fresh reasoning turn has a present (empty)
reasoning field; a non-reasoning turn fed one content event still has none. -/
theorem claim_C7_wit :
    (∃ r, (((([] : List Json).foldl (processChunk "2")
        (beginTurn chatState0 "1" "2" 0 true)).messages.getLast?).map
        Message.reasoning) = some (some r))
    ∧ (((([contentEvent "a"].foldl (processChunk "2")
        (beginTurn chatState0 "1" "2" 0 false)).messages.getLast?).map
        Message.reasoning) = some none) :=
  ⟨(claim_C7 chatState0 "1" "2" 0 true []).1 rfl,
   (claim_C7 chatState0 "1" "2" 0 false [contentEvent "a"]).2 rfl (by
      intro j hj
      rw [List.mem_singleton] at hj
      subst hj
      decide)⟩

/-- C9: On every terminal path of a started turn — normal completion,
cancellation mid-stream, transport failure, or non-2xx response — the loading
indicator ends cleared and the cancellation token ends released. -/
theorem claim_C9 (st : ChatState) (hasToken : Bool) (userId aiMessageId : String)
    (ts : Nat) (isReasoningModel : Bool) (outcome : TurnOutcome)
    (hload : st.isLoading = false) (htok : hasToken = true)
    (hinput : ¬(st.inputValue.trim = "" ∧ st.uploadedFiles = [])) :
    (handleSendMessage st hasToken userId aiMessageId ts isReasoningModel outcome).isLoading
        = false
      ∧ (handleSendMessage st hasToken userId aiMessageId ts
          isReasoningModel outcome).abortController = none := by
  unfold handleSendMessage
  have hguard : ¬((st.inputValue.trim = "" ∧ st.uploadedFiles = []) ∨ st.isLoading = true) := by
    intro hor
    rcases hor with h | h
    · exact hinput h
    · rw [hload] at h
      exact Bool.false_ne_true h
  rw [if_neg hguard, htok]
  rw [if_neg (by simp : ¬(true = false))]
  cases outcome with
  | ok items =>
    show (completeTurn aiMessageId _ items).isLoading = false
      ∧ (completeTurn aiMessageId _ items).abortController = none
    unfold completeTurn
    exact ⟨rfl, rfl⟩
  | transportFailure => exact ⟨rfl, rfl⟩
  | httpFailure n => exact ⟨rfl, rfl⟩

/-- Witness for C9 at a concrete quiescent state with a pending attachment,
token present, outcome a normally completed empty stream. -/
theorem claim_C9_wit :
    (handleSendMessage { chatState0 with uploadedFiles := [FileKind.image] } true "1" "2" 0
        false (TurnOutcome.ok [])).isLoading = false
      ∧ (handleSendMessage { chatState0 with uploadedFiles := [FileKind.image] } true "1" "2" 0
          false (TurnOutcome.ok [])).abortController = none :=
  claim_C9 { chatState0 with uploadedFiles := [FileKind.image] } true "1" "2" 0 false
    (TurnOutcome.ok []) rfl rfl
    (by
      intro h
      have h2 := h.2
      rw [show ({ chatState0 with uploadedFiles := [FileKind.image] } : ChatState).uploadedFiles
        = [FileKind.image] from rfl] at h2
      cases h2)
